import Mathlib

/-!
Verification development for the HTML document loader
(`rag_experiment_accelerator/doc_loader/htmlLoader.py`, function
`load_html_files_semantic`) and the chat-completion wrapper
(`rag_experiment_accelerator/llm/prompt_execution.py`, function
`generate_response`).

The Python code is shallowly embedded: the file system is an explicit tree
of named entries, the external partitioner and chunker are oracle
parameters returning `Except` (an `error` models a raised exception), and
Python local-variable semantics are made explicit where they matter (an
unbound local read raises `UnboundLocalError`).
-/

/-- A file-system entry: a file, or a directory with its children listed in
the order the operating system would enumerate them (scandir order). -/
inductive FSEntry where
  | file (name : String)
  | dir (name : String) (children : List FSEntry)

/-- Name of a file-system entry. -/
def FSEntry.name : FSEntry → String
  | .file n => n
  | .dir n _ => n

/-- True when the first character of the string is `c`. -/
def headIs (c : Char) (s : String) : Bool :=
  match s.data with
  | [] => false
  | a :: _ => a == c

/-- Hidden in the sense of the `glob` module: the name starts with a dot.
Recursive `**` skips exactly these entries. -/
def isHidden (s : String) : Bool := headIs '.' s

/-- Match of the glob component `[!.~]*.{ext}` against one name, as
`fnmatch` resolves it: a first character that is neither `.` nor `~`,
then anything, then a literal `.` and the extension, case-sensitively. -/
def matchesExt (ext : String) (name : String) : Bool :=
  match name.data with
  | [] => false
  | c :: rest => !(c == '.') && !(c == '~') && List.isSuffixOf ("." ++ ext).data rest

mutual

/-- Directories reachable from one entry by the recursive `**` component:
each result is the path (as segments) of a directory together with its
children, in the preorder in which `glob` enumerates them. Directories
whose name starts with a dot are skipped, exactly as `**` does. -/
def rdE : FSEntry → List (List String × List FSEntry)
  | .file _ => []
  | .dir n ch =>
      if isHidden n then []
      else ([n], ch) :: (rdL ch).map (fun pr => (n :: pr.1, pr.2))

/-- Directories reachable by `**` from a list of sibling entries, in
enumeration order. -/
def rdL : List FSEntry → List (List String × List FSEntry)
  | [] => []
  | e :: es => rdE e ++ rdL es

end

/-- All directories the pattern `**/` can stand for, starting with the root
itself (zero directory levels), then recursively in preorder. -/
def recursiveDirs (tree : List FSEntry) : List (List String × List FSEntry) :=
  ([], tree) :: rdL tree

/-- The names inside one directory matched by the final glob component
`[!.~]*.{ext}`: `glob` first drops hidden names (the pattern does not start
with a dot), then filters with `fnmatch`. Directory entries match as well
as files, since the pattern does not end with a separator. -/
def dirMatches (ext : String) (entries : List FSEntry) : List String :=
  entries.filterMap
    (fun e => if !isHidden e.name && matchesExt ext e.name then some e.name else none)

/-- Join path segments with the separator, as `os.path.join` and `glob`
produce result paths on a POSIX system. -/
def joinPath (segs : List String) : String := String.intercalate "/" segs

/-- One call `glob.glob(os.path.join(folder_path, "**/[!.~]*." + ext),
recursive=True)`: for each directory `**` can stand for, in preorder, the
matching names inside it, each joined below the folder path. -/
def globRecursive (folder : String) (ext : String) (tree : List FSEntry) : List String :=
  (recursiveDirs tree).flatMap
    (fun pr => (dirMatches ext pr.2).map (fun n => joinPath (folder :: pr.1 ++ [n])))

/-- The discovery loop of `load_html_files_semantic` (htmlLoader.py lines
68 to 73): `matching_files` accumulates the glob results of each pattern in
order. -/
def discoverFiles (folder : String) (glob_patterns : List String)
    (tree : List FSEntry) : List String :=
  glob_patterns.flatMap (fun p => globRecursive folder p tree)

/-- The default value of the `glob_patterns` argument in the source. -/
def defaultGlobPatterns : List String := ["html", "htm", "xhtml", "html5"]

/-- An exception in the embedded Python fragment. `unboundLocal` is the
`UnboundLocalError` raised when a function-local variable is read before
any assignment to it has executed; `externalError` stands for any exception
raised by the external partitioner or chunker (its payload records which
file was being processed). -/
inductive PyError where
  | unboundLocal (var : String)
  | externalError (file : String)
deriving DecidableEq

/-- A structural element produced by the external partitioner
(`partition_html`), opaque to this code. -/
structure Element where
  content : String
deriving DecidableEq

/-- A chunk produced by the external chunker (`chunk_elements`); the loader
only reads its `text` attribute. -/
structure Chunk where
  text : String
deriving DecidableEq

/-- The inner loop body of htmlLoader.py lines 86 to 88: for each chunk,
store `(id, chunk.text)` into the accumulating collection and increment
`id`. The dictionary `all_chunks`, whose keys are the fresh integers
assigned here, is modelled as the list of its entries in insertion order. -/
def appendChunks (chunks : List Chunk) (id : Nat) (acc : List (Nat × String)) :
    List (Nat × String) × Nat :=
  match chunks with
  | [] => (acc, id)
  | c :: cs => appendChunks cs (id + 1) (acc ++ [(id, c.text)])

/-- The assembly loop of htmlLoader.py lines 83 to 88, parameterised by the
two external oracles: for each file in order, partition it, chunk the
elements, and append every chunk text under the next id. An `error` from
either oracle aborts the whole loop at once (the Python `for` body has no
exception handler). The second component is the list of files for which the
partitioner was actually invoked before the loop returned. -/
def assemblyLoop (partition : String → Except PyError (List Element))
    (chunk_elements : List Element → Except PyError (List Chunk)) :
    List String → Nat → List (Nat × String) →
    Except PyError (List (Nat × String)) × List String
  | [], _, acc => (Except.ok acc, [])
  | f :: fs, id, acc =>
    match partition f with
    | Except.error e => (Except.error e, [f])
    | Except.ok elements =>
      match chunk_elements elements with
      | Except.error e => (Except.error e, [f])
      | Except.ok chunks =>
        let step := appendChunks chunks id acc
        let rest := assemblyLoop partition chunk_elements fs step.2 step.1
        (rest.1, f :: rest.2)

/-- Embedding of `load_html_files_semantic` (htmlLoader.py lines 47 to 90).
After the discovery loop, line 77 initialises `documents` and line 78 reads
the local variable `loader_kwargs`; no assignment to `loader_kwargs`
precedes that read (the only assignment, line 79, sits inside the guarded
branch), so the local is still unbound there. The local slot is modelled as
an `Option` that is `none` while unbound: reading it while `none` raises
`UnboundLocalError`, as Python does. The first component is the returned
collection or the raised exception; the second is the list of files handed
to the partitioner. -/
def load_html_files_semantic (partition : String → Except PyError (List Element))
    (chunk_elements : List Element → Except PyError (List Chunk))
    (folder_path : String) (chunk_size : String) (overlap_size : String)
    (glob_patterns : List String) (tree : List FSEntry) :
    Except PyError (List (Nat × String)) × List String :=
  let matching_files := discoverFiles folder_path glob_patterns tree
  let loader_kwargs : Option (List (String × String)) := none
  match loader_kwargs with
  | none => (Except.error (PyError.unboundLocal "loader_kwargs"), [])
  | some _ => assemblyLoop partition chunk_elements matching_files 0 []

/-- Fuelled replacement of every non-overlapping occurrence of `pat` by
`rep`, scanning left to right, as Python `str.replace` does. The fuel is
only a termination device: each step consumes at least one character, so
any fuel at least the length of the text gives the full result. -/
def raFuel (pat rep : List Char) : Nat → List Char → List Char
  | _, [] => []
  | 0, s => s
  | Nat.succ n, c :: rest =>
    if pat ≠ [] ∧ pat.isPrefixOf (c :: rest) then
      rep ++ raFuel pat rep n ((c :: rest).drop pat.length)
    else
      c :: raFuel pat rep n rest

/-- Python `s.replace(pat, rep)` for a non-empty pattern: replace every
non-overlapping occurrence, leftmost first. -/
def replaceAll (s pat rep : List Char) : List Char := raFuel pat rep s.length s

/-- The response cleansing of prompt_execution.py lines 44 to 47: remove,
in this order, every occurrence of the opening code fence, of the closing
code fence, of the newline character, and of the tab character. -/
def cleanse_answer (answer : String) : String :=
  let a1 := replaceAll answer.data "```json\n".data []
  let a2 := replaceAll a1 "\n```".data []
  let a3 := replaceAll a2 "\n".data []
  let a4 := replaceAll a3 "\t".data []
  String.mk a4

/-- One message of the chat payload built by `generate_response`
(prompt_execution.py lines 22 to 29). -/
structure ChatMessage where
  role : String
  content : String
deriving DecidableEq

/-- The keyword arguments handed to the completion call
(prompt_execution.py lines 31 to 38). The dictionary `params` always holds
`messages` and `temperature`; exactly one of the keys `engine` and `model`
is then added, so each is modelled as an `Option` that is `none` when the
key is absent. -/
structure RequestParams where
  messages : List ChatMessage
  temperature : ℚ
  engine : Option String
  model : Option String
deriving DecidableEq

/-- The request construction of `generate_response` (prompt_execution.py
lines 22 to 38): a system message then a user message, the temperature
passed through, and the model identifier stored under `engine` when the
global `openai.api_type` equals `"azure"` and under `model` otherwise. -/
def generate_response_request (api_type : String) (sys_message : String)
    (prompt : String) (engine_model : String) (temperature : ℚ) : RequestParams :=
  let prompt_structure := [ChatMessage.mk "system" sys_message]
  let prompt_structure := prompt_structure ++ [ChatMessage.mk "user" prompt]
  if api_type = "azure" then
    { messages := prompt_structure, temperature := temperature,
      engine := some engine_model, model := none }
  else
    { messages := prompt_structure, temperature := temperature,
      engine := none, model := some engine_model }

/-- Outcome of one attempted backend call, as the retry layer sees it. -/
inductive CallResult where
  | ok (v : String)
  | transientFailure
deriving DecidableEq

/-- The error the retry layer raises once every allowed attempt has
failed. -/
inductive RetryError where
  | retriesExhausted
deriving DecidableEq

/-- What one run of the retried operation produced: the final result, the
number of call attempts actually issued, and the backoff delays slept
between consecutive attempts. -/
structure RetryOutcome where
  result : Except RetryError String
  attempts : Nat
  waits : List ℚ

/-- A proposed random delay clamped into the configured bounds. -/
def clampWait (minDelay maxDelay w : ℚ) : ℚ := max minDelay (min maxDelay w)

/-- Modelled from the spec: the retry combinator that prompt_execution.py
line 8 takes from the third-party `tenacity` decorator, which is not under
src/. Per the spec, a transient failure is followed by a randomized
exponential backoff bounded between a minimum and a maximum delay and a
further attempt, up to a fixed maximum number of total attempts; once the
attempts are exhausted the call fails with the retries-exhausted error.
`call` gives the outcome of each attempt (numbered from 0) and `rand` the
proposed random delay after it; `remaining` counts the attempts still
allowed and `made` those already issued. No delay follows the final
attempt. -/
def retryGo (call : Nat → CallResult) (rand : Nat → ℚ) (minDelay maxDelay : ℚ) :
    Nat → Nat → RetryOutcome
  | 0, made => { result := Except.error RetryError.retriesExhausted, attempts := made, waits := [] }
  | Nat.succ n, made =>
    match call made with
    | CallResult.ok v => { result := Except.ok v, attempts := made + 1, waits := [] }
    | CallResult.transientFailure =>
      if n = 0 then
        { result := Except.error RetryError.retriesExhausted, attempts := made + 1, waits := [] }
      else
        let rest := retryGo call rand minDelay maxDelay n (made + 1)
        { result := rest.result, attempts := rest.attempts,
          waits := clampWait minDelay maxDelay (rand made) :: rest.waits }

/-- Modelled from the spec: `generate_response` under its retry decorator,
configured as in prompt_execution.py line 8 with a minimum delay of 1, a
maximum delay of 90, and at most 6 total attempts. -/
def generate_response_retry (call : Nat → CallResult) (rand : Nat → ℚ) : RetryOutcome :=
  retryGo call rand 1 90 6 0

/-- Spec side: a directory with children `es` sits at path `segs` below the
root, every segment naming a directory entry of the level above, and no
segment on the way starts with a dot. -/
def ReachableDir : List FSEntry → List String → List FSEntry → Prop
  | tree, [], es => tree = es
  | tree, s :: rest, es =>
    isHidden s = false ∧ ∃ ch, FSEntry.dir s ch ∈ tree ∧ ReachableDir ch rest es

/-- Spec side: a file named `name` sits at directory path `segs` below the
root, with no restriction on the directory names passed through. -/
def FileAt : List FSEntry → List String → String → Prop
  | tree, [], name => FSEntry.file name ∈ tree
  | tree, s :: rest, name => ∃ ch, FSEntry.dir s ch ∈ tree ∧ FileAt ch rest name

/-- The discovery contract in the words of the spec (refinement side, to be
compared with `discoverFiles`): a path belongs to the result exactly when
it names a file, at any depth, whose final segment does not start with a
dot or a tilde and whose extension matches one of the patterns
case-sensitively. -/
def discoveryClaimIncludes (folder : String) (patterns : List String)
    (tree : List FSEntry) (p : String) : Prop :=
  ∃ ext ∈ patterns, ∃ segs name,
    FileAt tree segs name ∧
    headIs '.' name = false ∧ headIs '~' name = false ∧
    List.isSuffixOf ("." ++ ext).data name.data = true ∧
    p = joinPath (folder :: segs ++ [name])

/-- The amended discovery contract: a path belongs to the result exactly
when it names an entry (file or directory) whose final segment does not
start with a dot or a tilde and whose extension matches one of the patterns
case-sensitively, and all of whose intermediate directory segments avoid a
leading dot. -/
def discoveryAmendedIncludes (folder : String) (patterns : List String)
    (tree : List FSEntry) (p : String) : Prop :=
  ∃ ext ∈ patterns, ∃ segs name es,
    ReachableDir tree segs es ∧ (∃ e ∈ es, FSEntry.name e = name) ∧
    headIs '.' name = false ∧ headIs '~' name = false ∧
    List.isSuffixOf ("." ++ ext).data name.data = true ∧
    p = joinPath (folder :: segs ++ [name])

/-- A folder holding one matching file inside a hidden directory. -/
def hiddenDirTree : List FSEntry := [FSEntry.dir ".hid" [FSEntry.file "a.html"]]

/-- A folder holding two matching files at top level. -/
def treeAB : List FSEntry := [FSEntry.file "a.html", FSEntry.file "b.html"]

/-- An empty folder. -/
def treeEmpty : List FSEntry := []

/-- A folder in which no file matches any of the default patterns. -/
def treeNoMatch : List FSEntry := [FSEntry.file "notes.txt"]

/-- A concrete partitioner oracle that succeeds on every file, yielding one
element that remembers the file it came from. -/
def partitionOracle : String → Except PyError (List Element) :=
  fun f => Except.ok [Element.mk f]

/-- A concrete chunker oracle that succeeds on every element list, cutting
the element of the first fixture file into two chunks and every other
element into three. -/
def chunkerOracle : List Element → Except PyError (List Chunk) :=
  fun es => Except.ok (es.flatMap (fun e =>
    if e.content = "folder/a.html" then [Chunk.mk "a0", Chunk.mk "a1"]
    else [Chunk.mk "b0", Chunk.mk "b1", Chunk.mk "b2"]))

/-- A partitioner oracle that raises on every file it is given. -/
def failingPartition : String → Except PyError (List Element) :=
  fun f => Except.error (PyError.externalError f)

/-- A forced call sequence for the retry model: five transient failures,
then success. -/
def witnessCall : Nat → CallResult :=
  fun k => if k < 5 then CallResult.transientFailure else CallResult.ok "answer"

/-- A fixed random-delay proposal for the retry model. -/
def witnessRand : Nat → ℚ := fun _ => 7

theorem matchesExt_iff_spec (ext name : String) :
    matchesExt ext name = true ↔
      headIs '.' name = false ∧ headIs '~' name = false ∧
      List.isSuffixOf ("." ++ ext).data name.data = true := by
  obtain ⟨l⟩ := name
  cases l with
  | nil =>
    simp only [matchesExt, headIs, List.isSuffixOf_iff_suffix]
    simp [List.suffix_nil]
  | cons c rest =>
    simp only [matchesExt, headIs, Bool.and_eq_true, Bool.not_eq_true']
    constructor
    · rintro ⟨⟨hdot, htilde⟩, hsuf⟩
      refine ⟨hdot, htilde, ?_⟩
      rw [List.isSuffixOf_iff_suffix] at hsuf ⊢
      exact hsuf.trans (List.suffix_cons c rest)
    · rintro ⟨hdot, htilde, hsuf⟩
      refine ⟨⟨hdot, htilde⟩, ?_⟩
      rw [List.isSuffixOf_iff_suffix] at hsuf ⊢
      rcases List.suffix_cons_iff.mp hsuf with heq | h
      · exfalso
        have : ("." ++ ext).data = '.' :: ext.data := rfl
        rw [this] at heq
        have : c = '.' := (List.cons.injEq _ _ _ _ ▸ heq).1.symm
        simp [this] at hdot
      · exact h

theorem mem_dirMatches (ext name : String) (entries : List FSEntry) :
    name ∈ dirMatches ext entries ↔
      ∃ e ∈ entries, FSEntry.name e = name ∧
        (!isHidden name && matchesExt ext name) = true := by
  simp only [dirMatches, List.mem_filterMap]
  constructor
  · rintro ⟨e, he, hsome⟩
    by_cases hc : (!isHidden e.name && matchesExt ext e.name) = true
    · rw [if_pos hc] at hsome
      obtain rfl := Option.some.injEq _ _ ▸ hsome
      exact ⟨e, he, rfl, hc⟩
    · rw [if_neg hc] at hsome
      exact absurd hsome (Option.noConfusion)
  · rintro ⟨e, he, rfl, hc⟩
    exact ⟨e, he, by rw [if_pos hc]⟩

theorem mem_rdL (entries : List FSEntry) (p : List String × List FSEntry) :
    p ∈ rdL entries ↔ ∃ e ∈ entries, p ∈ rdE e := by
  induction entries with
  | nil => simp [rdL]
  | cons e es ih =>
    simp only [rdL, List.mem_append, ih, List.mem_cons]
    constructor
    · rintro (h | ⟨e', he', hp⟩)
      · exact ⟨e, Or.inl rfl, h⟩
      · exact ⟨e', Or.inr he', hp⟩
    · rintro ⟨e', (rfl | he'), hp⟩
      · exact Or.inl hp
      · exact Or.inr ⟨e', he', hp⟩

theorem mem_rdE (e : FSEntry) (p : List String × List FSEntry) :
    p ∈ rdE e ↔
      ∃ n ch, e = FSEntry.dir n ch ∧ isHidden n = false ∧
        (p = ([n], ch) ∨ ∃ q ∈ rdL ch, p = (n :: q.1, q.2)) := by
  cases e with
  | file n => simp [rdE]
  | dir n ch =>
    simp only [rdE]
    by_cases hn : isHidden n
    · rw [if_pos hn]
      simp only [List.not_mem_nil, false_iff, not_exists]
      rintro n' ch' ⟨heq, hh, _⟩
      obtain ⟨rfl, rfl⟩ := FSEntry.dir.injEq _ _ _ _ ▸ heq
      rw [hn] at hh
      exact Bool.noConfusion hh
    · rw [if_neg hn]
      simp only [List.mem_cons, List.mem_map]
      constructor
      · rintro (rfl | ⟨q, hq, rfl⟩)
        · exact ⟨n, ch, rfl, Bool.not_eq_true _ ▸ hn, Or.inl rfl⟩
        · exact ⟨n, ch, rfl, Bool.not_eq_true _ ▸ hn, Or.inr ⟨q, hq, rfl⟩⟩
      · rintro ⟨n', ch', heq, _, (rfl | ⟨q, hq, rfl⟩)⟩ <;>
          obtain ⟨rfl, rfl⟩ := FSEntry.dir.injEq _ _ _ _ ▸ heq
        · exact Or.inl rfl
        · exact Or.inr ⟨q, hq, rfl⟩

theorem rdL_fst_ne_nil (entries : List FSEntry) (p : List String × List FSEntry)
    (h : p ∈ rdL entries) : p.1 ≠ [] := by
  obtain ⟨e, _, hp⟩ := (mem_rdL entries p).mp h
  obtain ⟨n, ch, _, _, (rfl | ⟨q, _, rfl⟩)⟩ := (mem_rdE e p).mp hp <;> simp

theorem mem_recursiveDirs (segs : List String) :
    ∀ (tree es : List FSEntry),
      (segs, es) ∈ recursiveDirs tree ↔ ReachableDir tree segs es := by
  induction segs with
  | nil =>
    intro tree es
    simp only [recursiveDirs, List.mem_cons, ReachableDir]
    constructor
    · rintro (heq | hmem)
      · exact (Prod.mk.injEq _ _ _ _ ▸ heq).2.symm
      · exact absurd rfl (rdL_fst_ne_nil tree _ hmem)
    · rintro rfl
      exact Or.inl rfl
  | cons s rest ih =>
    intro tree es
    simp only [recursiveDirs, List.mem_cons, ReachableDir]
    constructor
    · rintro (heq | hmem)
      · exact absurd (Prod.mk.injEq _ _ _ _ ▸ heq).1 (List.cons_ne_nil s rest)
      · obtain ⟨e, he, hp⟩ := (mem_rdL tree _).mp hmem
        obtain ⟨n, ch, rfl, hn, (heq | ⟨q, hq, heq⟩)⟩ := (mem_rdE e _).mp hp
        · obtain ⟨h1, h2⟩ := Prod.mk.injEq _ _ _ _ ▸ heq
          obtain ⟨rfl, rfl⟩ := List.cons.injEq _ _ _ _ ▸ h1
          refine ⟨hn, ch, he, ?_⟩
          rw [← ih ch es]
          subst h2
          exact List.mem_cons_self _ _
        · obtain ⟨q1, q2⟩ := q
          obtain ⟨h1, h2⟩ := Prod.mk.injEq _ _ _ _ ▸ heq
          obtain ⟨rfl, hrest⟩ := List.cons.injEq _ _ _ _ ▸ h1
          refine ⟨hn, ch, he, ?_⟩
          rw [← ih ch es]
          subst h2
          subst hrest
          simp only [recursiveDirs, List.mem_cons]
          exact Or.inr hq
    · rintro ⟨hs, ch, hch, hreach⟩
      rw [← ih ch es] at hreach
      simp only [recursiveDirs, List.mem_cons] at hreach
      right
      rw [mem_rdL]
      refine ⟨FSEntry.dir s ch, hch, ?_⟩
      rw [mem_rdE]
      rcases hreach with heq | hmem
      · obtain ⟨h1, h2⟩ := Prod.mk.injEq _ _ _ _ ▸ heq
        exact ⟨s, ch, rfl, hs, Or.inl (by rw [h1, h2])⟩
      · exact ⟨s, ch, rfl, hs, Or.inr ⟨(rest, es), hmem, rfl⟩⟩

theorem mem_globRecursive (folder ext : String) (tree : List FSEntry) (p : String) :
    p ∈ globRecursive folder ext tree ↔
      ∃ segs es name, ReachableDir tree segs es ∧ name ∈ dirMatches ext es ∧
        p = joinPath (folder :: segs ++ [name]) := by
  simp only [globRecursive, List.mem_flatMap, List.mem_map]
  constructor
  · rintro ⟨pr, hpr, name, hname, rfl⟩
    obtain ⟨segs, es⟩ := pr
    exact ⟨segs, es, name, (mem_recursiveDirs segs tree es).mp hpr, hname, rfl⟩
  · rintro ⟨segs, es, name, hreach, hname, rfl⟩
    exact ⟨(segs, es), (mem_recursiveDirs segs tree es).mpr hreach, name, hname, rfl⟩

/-- C4 amended. Discovery returns exactly the paths of entries (files or
directories alike) whose final segment does not start with a dot or a
tilde and whose extension matches one of the patterns case-sensitively,
and all of whose intermediate directory segments avoid a leading dot:
recursive glob does not descend into hidden directories. -/
theorem discovery_amended_contract (folder : String) (patterns : List String)
    (tree : List FSEntry) (p : String) :
    p ∈ discoverFiles folder patterns tree ↔
      discoveryAmendedIncludes folder patterns tree p := by
  simp only [discoverFiles, List.mem_flatMap, discoveryAmendedIncludes]
  constructor
  · rintro ⟨ext, hext, hp⟩
    obtain ⟨segs, es, name, hreach, hname, rfl⟩ := (mem_globRecursive folder ext tree _).mp hp
    obtain ⟨e, he, hen, hcond⟩ := (mem_dirMatches ext _ es).mp hname
    rw [Bool.and_eq_true, Bool.not_eq_true'] at hcond
    obtain ⟨hhid, hmatch⟩ := hcond
    obtain ⟨hdot, htilde, hsuf⟩ := (matchesExt_iff_spec ext _).mp hmatch
    exact ⟨ext, hext, segs, name, es, hreach, ⟨e, he, hen⟩, hdot, htilde, hsuf, rfl⟩
  · rintro ⟨ext, hext, segs, name, es, hreach, ⟨e, he, hen⟩, hdot, htilde, hsuf, rfl⟩
    refine ⟨ext, hext, ?_⟩
    rw [mem_globRecursive]
    refine ⟨segs, es, name, hreach, ?_, rfl⟩
    rw [mem_dirMatches]
    refine ⟨e, he, hen, ?_⟩
    rw [Bool.and_eq_true, Bool.not_eq_true']
    exact ⟨hdot, (matchesExt_iff_spec ext name).mpr ⟨hdot, htilde, hsuf⟩⟩

/-- C4 counterexample. A file whose final segment is acceptable but which
lies inside a hidden directory satisfies the discovery contract as the
spec states it, yet discovery does not return its path. -/
theorem discovery_claim_counterexample :
    discoveryClaimIncludes "folder" ["html"] hiddenDirTree "folder/.hid/a.html" ∧
      "folder/.hid/a.html" ∉ discoverFiles "folder" ["html"] hiddenDirTree := by
  constructor
  · refine ⟨"html", List.mem_singleton.mpr rfl, [".hid"], "a.html", ?_, ?_, ?_, ?_, ?_⟩
    · exact ⟨[FSEntry.file "a.html"], List.mem_singleton.mpr rfl,
        List.mem_singleton.mpr rfl⟩
    · decide
    · decide
    · decide
    · decide
  · decide

/-- C1. Whatever the folder, the sizes, the patterns, the file tree and the
behaviour of the external partitioner and chunker, the function raises
`UnboundLocalError` for `loader_kwargs` and hands no file at all to the
partitioner: it never returns a chunk collection. -/
theorem loader_always_unbound_local
    (partition : String → Except PyError (List Element))
    (chunk_elements : List Element → Except PyError (List Chunk))
    (folder_path chunk_size overlap_size : String)
    (glob_patterns : List String) (tree : List FSEntry) :
    load_html_files_semantic partition chunk_elements folder_path chunk_size
        overlap_size glob_patterns tree =
      (Except.error (PyError.unboundLocal "loader_kwargs"), []) := rfl

/-- C2 evaluation. On a folder of two matching files, for which the oracles
would produce two and three chunks, the assembly loop alone would return
the five entries in file order then chunk order, but the function itself
raises `UnboundLocalError` and returns no collection. -/
theorem loader_no_collection_returned :
    (load_html_files_semantic partitionOracle chunkerOracle "folder" "1000" "200"
        defaultGlobPatterns treeAB).1 =
      Except.error (PyError.unboundLocal "loader_kwargs") ∧
    discoverFiles "folder" defaultGlobPatterns treeAB =
      ["folder/a.html", "folder/b.html"] ∧
    (assemblyLoop partitionOracle chunkerOracle
        (discoverFiles "folder" defaultGlobPatterns treeAB) 0 []).1 =
      Except.ok [(0, "a0"), (1, "a1"), (2, "b0"), (3, "b1"), (4, "b2")] ∧
    [(0, "a0"), (1, "a1"), (2, "b0"), (3, "b1"), (4, "b2")].length = 2 + 3 := by
  refine ⟨rfl, by decide, rfl, rfl⟩

/-- C3 evaluation. The assembly loop alone would assign the ids 0, 1, 2,
3, 4 with no gap, but the function raises `UnboundLocalError` before any id
is assigned, so no run produces the claimed key sequence. -/
theorem loader_no_ids_assigned :
    Except.map (fun l => l.map Prod.fst)
        (assemblyLoop partitionOracle chunkerOracle
          (discoverFiles "folder" defaultGlobPatterns treeAB) 0 []).1 =
      Except.ok (List.range 5) ∧
    (load_html_files_semantic partitionOracle chunkerOracle "folder" "1000" "200"
        defaultGlobPatterns treeAB).1 =
      Except.error (PyError.unboundLocal "loader_kwargs") := by
  refine ⟨rfl, rfl⟩

/-- C5 evaluation. On an empty folder, and on a folder with no matching
file, discovery finds nothing, yet the function still raises
`UnboundLocalError` instead of returning the empty collection. -/
theorem loader_raises_even_on_empty :
    discoverFiles "folder" defaultGlobPatterns treeEmpty = [] ∧
    (load_html_files_semantic partitionOracle chunkerOracle "folder" "1000" "200"
        defaultGlobPatterns treeEmpty).1 =
      Except.error (PyError.unboundLocal "loader_kwargs") ∧
    discoverFiles "folder" defaultGlobPatterns treeNoMatch = [] ∧
    (load_html_files_semantic partitionOracle chunkerOracle "folder" "1000" "200"
        defaultGlobPatterns treeNoMatch).1 =
      Except.error (PyError.unboundLocal "loader_kwargs") := by
  refine ⟨by decide, rfl, by decide, rfl⟩

/-- C9 evaluation. Two runs over the same unchanged folder with the same
oracles: the assembly loop alone would return the same collection twice
with ids restarting at 0, but each run of the function raises
`UnboundLocalError`, so no run yields a collection to compare. -/
theorem loader_idempotence_vacated :
    (assemblyLoop partitionOracle chunkerOracle
        (discoverFiles "folder" defaultGlobPatterns treeAB) 0 []).1 =
      (assemblyLoop partitionOracle chunkerOracle
        (discoverFiles "folder" defaultGlobPatterns treeAB) 0 []).1 ∧
    (load_html_files_semantic partitionOracle chunkerOracle "folder" "1000" "200"
        defaultGlobPatterns treeAB).1 =
      Except.error (PyError.unboundLocal "loader_kwargs") ∧
    (load_html_files_semantic partitionOracle chunkerOracle "folder" "1000" "200"
        defaultGlobPatterns treeAB).1 ≠
      Except.ok [(0, "a0"), (1, "a1"), (2, "b0"), (3, "b1"), (4, "b2")] := by
  refine ⟨rfl, rfl, fun h => Except.noConfusion h⟩

/-- C10 evaluation. With a partitioner that fails on every file, the
assembly loop alone would let that failure escape with no part of the
collection kept, but the function never reaches the partitioner: it raises
`UnboundLocalError`, a different error, with the partitioner uninvoked. -/
theorem loader_partition_failure_unreachable :
    (load_html_files_semantic failingPartition chunkerOracle "folder" "1000" "200"
        defaultGlobPatterns treeAB) =
      (Except.error (PyError.unboundLocal "loader_kwargs"), []) ∧
    (assemblyLoop failingPartition chunkerOracle
        (discoverFiles "folder" defaultGlobPatterns treeAB) 0 []) =
      (Except.error (PyError.externalError "folder/a.html"), ["folder/a.html"]) := by
  refine ⟨rfl, rfl⟩

/-- C6. Every request carries exactly the system message then the user
message, the given temperature, and the model identifier under `engine`
exactly when the configured backend type is `"azure"` and under `model`
otherwise; exactly one of the two fields is present. -/
theorem request_shape (api_type sys_message prompt engine_model : String)
    (temperature : ℚ) :
    (generate_response_request api_type sys_message prompt engine_model
        temperature).messages =
      [ChatMessage.mk "system" sys_message, ChatMessage.mk "user" prompt] ∧
    (generate_response_request api_type sys_message prompt engine_model
        temperature).temperature = temperature ∧
    ((generate_response_request api_type sys_message prompt engine_model
        temperature).engine =
      if api_type = "azure" then some engine_model else none) ∧
    ((generate_response_request api_type sys_message prompt engine_model
        temperature).model =
      if api_type = "azure" then none else some engine_model) ∧
    ((generate_response_request api_type sys_message prompt engine_model
        temperature).engine.isSome =
      !(generate_response_request api_type sys_message prompt engine_model
        temperature).model.isSome) := by
  by_cases h : api_type = "azure" <;>
    simp [generate_response_request, h]

theorem mem_raFuel (pat rep : List Char) :
    ∀ (fuel : Nat) (s : List Char) (x : Char), x ∈ raFuel pat rep fuel s →
      x ∈ s ∨ x ∈ rep := by
  intro fuel
  induction fuel with
  | zero =>
    intro s x hx
    cases s with
    | nil => simp [raFuel] at hx
    | cons a rest => exact Or.inl (by simpa [raFuel] using hx)
  | succ n ih =>
    intro s x hx
    cases s with
    | nil => simp [raFuel] at hx
    | cons a rest =>
      simp only [raFuel] at hx
      by_cases hc : pat ≠ [] ∧ pat.isPrefixOf (a :: rest) = true
      · rw [if_pos hc] at hx
        rcases List.mem_append.mp hx with hr | hrec
        · exact Or.inr hr
        · rcases ih _ x hrec with hs | hr
          · exact Or.inl (List.mem_of_mem_drop hs)
          · exact Or.inr hr
      · rw [if_neg hc] at hx
        rcases List.mem_cons.mp hx with rfl | hrec
        · exact Or.inl (List.mem_cons_self _ _)
        · rcases ih _ x hrec with hs | hr
          · exact Or.inl (List.mem_cons_of_mem _ hs)
          · exact Or.inr hr

theorem not_mem_raFuel_single (c : Char) :
    ∀ (fuel : Nat) (s : List Char), s.length ≤ fuel → c ∉ raFuel [c] [] fuel s := by
  intro fuel
  induction fuel with
  | zero =>
    intro s hs
    rw [Nat.le_zero, List.length_eq_zero] at hs
    subst hs
    simp [raFuel]
  | succ n ih =>
    intro s hs
    cases s with
    | nil => simp [raFuel]
    | cons a rest =>
      simp only [raFuel]
      by_cases hc : [c] ≠ [] ∧ List.isPrefixOf [c] (a :: rest) = true
      · rw [if_pos hc]
        simp only [List.nil_append, List.drop_succ_cons, List.drop_zero]
        exact ih rest (by simpa using hs)
      · rw [if_neg hc]
        intro hx
        rcases List.mem_cons.mp hx with heq | hrec
        · apply hc
          refine ⟨List.cons_ne_nil c [], ?_⟩
          rw [List.isPrefixOf_iff_prefix, heq]
          exact List.cons_prefix_cons.mpr ⟨rfl, List.nil_prefix⟩
        · exact ih rest (by simpa using hs) hrec

theorem cleanse_answer_no_newline_no_tab (raw : String) :
    '\n' ∉ (cleanse_answer raw).data ∧ '\t' ∉ (cleanse_answer raw).data := by
  simp only [cleanse_answer, replaceAll]
  constructor
  · intro hx
    rcases mem_raFuel "\t".data [] _ _ _ hx with hs | hr
    · revert hs
      exact not_mem_raFuel_single '\n' _ _ (le_refl _)
    · simp at hr
  · intro hx
    revert hx
    exact not_mem_raFuel_single '\t' _ _ (le_refl _)

/-- C7 counterexample. On the fixture input the cleansing returns the
fenced JSON body without any trailing double quote, not the output string
printed in the spec, which carries one. -/
theorem cleanse_fixture_counterexample :
    cleanse_answer "```json\n\x7b\"a\": 1\x7d\n```" ≠ "\x7b\"a\": 1\x7d\"" ∧
    cleanse_answer "```json\n\x7b\"a\": 1\x7d\n```" = "\x7b\"a\": 1\x7d" := by
  refine ⟨by decide, by decide⟩

/-- C7 amended. The cleansing removes, in order, the opening fence, the
closing fence, every newline and every tab; on the fixture input it
returns the JSON body with no trailing quote, and on every input the
result holds no newline and no tab character. -/
theorem cleanse_answer_spec :
    cleanse_answer "```json\n\x7b\"a\": 1\x7d\n```" = "\x7b\"a\": 1\x7d" ∧
    ∀ raw : String,
      '\n' ∉ (cleanse_answer raw).data ∧ '\t' ∉ (cleanse_answer raw).data := by
  exact ⟨by decide, cleanse_answer_no_newline_no_tab⟩

theorem retryGo_zero (call : Nat → CallResult) (rand : Nat → ℚ)
    (minDelay maxDelay : ℚ) (made : Nat) :
    retryGo call rand minDelay maxDelay 0 made =
      { result := Except.error RetryError.retriesExhausted, attempts := made,
        waits := [] } := rfl

theorem retryGo_succ_ok (call : Nat → CallResult) (rand : Nat → ℚ)
    (minDelay maxDelay : ℚ) (n made : Nat) (v : String)
    (h : call made = CallResult.ok v) :
    retryGo call rand minDelay maxDelay (n + 1) made =
      { result := Except.ok v, attempts := made + 1, waits := [] } := by
  simp [retryGo, h]

theorem retryGo_succ_fail_last (call : Nat → CallResult) (rand : Nat → ℚ)
    (minDelay maxDelay : ℚ) (made : Nat)
    (h : call made = CallResult.transientFailure) :
    retryGo call rand minDelay maxDelay 1 made =
      { result := Except.error RetryError.retriesExhausted, attempts := made + 1,
        waits := [] } := by
  simp [retryGo, h]

theorem retryGo_succ_fail (call : Nat → CallResult) (rand : Nat → ℚ)
    (minDelay maxDelay : ℚ) (n made : Nat)
    (h : call made = CallResult.transientFailure) (hn : n ≠ 0) :
    retryGo call rand minDelay maxDelay (n + 1) made =
      { result := (retryGo call rand minDelay maxDelay n (made + 1)).result,
        attempts := (retryGo call rand minDelay maxDelay n (made + 1)).attempts,
        waits := clampWait minDelay maxDelay (rand made) ::
          (retryGo call rand minDelay maxDelay n (made + 1)).waits } := by
  simp [retryGo, h, hn]

theorem retryGo_attempts_le (call : Nat → CallResult) (rand : Nat → ℚ)
    (minDelay maxDelay : ℚ) :
    ∀ (remaining made : Nat),
      (retryGo call rand minDelay maxDelay remaining made).attempts ≤
        made + remaining := by
  intro remaining
  induction remaining with
  | zero => intro made; rw [retryGo_zero]; dsimp only; omega
  | succ n ih =>
    intro made
    cases hc : call made with
    | ok v =>
      rw [retryGo_succ_ok call rand minDelay maxDelay n made v hc]
      dsimp only
      omega
    | transientFailure =>
      by_cases hn : n = 0
      · subst hn
        rw [retryGo_succ_fail_last call rand minDelay maxDelay made hc]
      · rw [retryGo_succ_fail call rand minDelay maxDelay n made hc hn]
        dsimp only
        have := ih (made + 1)
        omega

theorem retryGo_waits_bounded (call : Nat → CallResult) (rand : Nat → ℚ) :
    ∀ (remaining made : Nat) (w : ℚ),
      w ∈ (retryGo call rand 1 90 remaining made).waits → 1 ≤ w ∧ w ≤ 90 := by
  intro remaining
  induction remaining with
  | zero => intro made w hw; rw [retryGo_zero] at hw; simp at hw
  | succ n ih =>
    intro made w hw
    cases hc : call made with
    | ok v =>
      rw [retryGo_succ_ok call rand 1 90 n made v hc] at hw
      simp at hw
    | transientFailure =>
      by_cases hn : n = 0
      · subst hn
        rw [retryGo_succ_fail_last call rand 1 90 made hc] at hw
        simp at hw
      · rw [retryGo_succ_fail call rand 1 90 n made hc hn] at hw
        rcases List.mem_cons.mp hw with rfl | hrec
        · exact ⟨le_max_left _ _, max_le (by norm_num) (min_le_left _ _)⟩
        · exact ih (made + 1) w hrec

theorem retryGo_all_fail (call : Nat → CallResult) (rand : Nat → ℚ)
    (minDelay maxDelay : ℚ) :
    ∀ (remaining made : Nat),
      (∀ k, k < remaining → call (made + k) = CallResult.transientFailure) →
      (retryGo call rand minDelay maxDelay remaining made).result =
          Except.error RetryError.retriesExhausted ∧
        (retryGo call rand minDelay maxDelay remaining made).attempts =
          made + remaining := by
  intro remaining
  induction remaining with
  | zero => intro made _h; rw [retryGo_zero]; exact ⟨rfl, by dsimp only; omega⟩
  | succ n ih =>
    intro made h
    have h0 : call made = CallResult.transientFailure := by
      simpa using h 0 (Nat.succ_pos n)
    by_cases hn : n = 0
    · subst hn
      rw [retryGo_succ_fail_last call rand minDelay maxDelay made h0]
      exact ⟨rfl, rfl⟩
    · rw [retryGo_succ_fail call rand minDelay maxDelay n made h0 hn]
      have hshift : ∀ k, k < n → call (made + 1 + k) = CallResult.transientFailure := by
        intro k hk
        have he : made + 1 + k = made + (k + 1) := by omega
        rw [he]
        exact h (k + 1) (by omega)
      obtain ⟨hres, hatt⟩ := ih (made + 1) hshift
      exact ⟨hres, by dsimp only; rw [hatt]; omega⟩

theorem retryGo_fail_then_ok (call : Nat → CallResult) (rand : Nat → ℚ)
    (minDelay maxDelay : ℚ) :
    ∀ (remaining made n : Nat) (v : String), n < remaining →
      (∀ k, k < n → call (made + k) = CallResult.transientFailure) →
      call (made + n) = CallResult.ok v →
      (retryGo call rand minDelay maxDelay remaining made).result = Except.ok v ∧
        (retryGo call rand minDelay maxDelay remaining made).attempts =
          made + n + 1 := by
  intro remaining
  induction remaining with
  | zero => intro made n v hn; omega
  | succ r ih =>
    intro made n v hn hfail hok
    cases n with
    | zero =>
      have h0 : call made = CallResult.ok v := by simpa using hok
      rw [retryGo_succ_ok call rand minDelay maxDelay r made v h0]
      exact ⟨rfl, rfl⟩
    | succ m =>
      have h0 : call made = CallResult.transientFailure := by
        simpa using hfail 0 (Nat.succ_pos m)
      have hr : r ≠ 0 := by omega
      rw [retryGo_succ_fail call rand minDelay maxDelay r made h0 hr]
      have hshift : ∀ k, k < m → call (made + 1 + k) = CallResult.transientFailure := by
        intro k hk
        have he : made + 1 + k = made + (k + 1) := by omega
        rw [he]
        exact hfail (k + 1) (by omega)
      have hok' : call (made + 1 + m) = CallResult.ok v := by
        have he : made + 1 + m = made + (m + 1) := by omega
        rw [he]
        exact hok
      obtain ⟨hres, hatt⟩ := ih (made + 1) m v (by omega) hshift hok'
      exact ⟨hres, by dsimp only; rw [hatt]; omega⟩

/-- C8. The retried call never issues more than 6 attempts; every backoff
delay slept lies between the configured minimum of 1 and maximum of 90; a
forced run of five transient failures then a success returns the success
value on the sixth attempt with no seventh; six straight failures end in
the retries-exhausted error after exactly six attempts. -/
theorem retry_at_most_six_attempts (call : Nat → CallResult) (rand : Nat → ℚ) :
    (generate_response_retry call rand).attempts ≤ 6 ∧
    (∀ w ∈ (generate_response_retry call rand).waits, 1 ≤ w ∧ w ≤ 90) ∧
    (∀ v : String,
      (∀ k, k < 5 → call k = CallResult.transientFailure) →
      call 5 = CallResult.ok v →
      (generate_response_retry call rand).result = Except.ok v ∧
        (generate_response_retry call rand).attempts = 6) ∧
    ((∀ k, k < 6 → call k = CallResult.transientFailure) →
      (generate_response_retry call rand).result =
          Except.error RetryError.retriesExhausted ∧
        (generate_response_retry call rand).attempts = 6) := by
  refine ⟨?_, ?_, ?_, ?_⟩
  · simpa using retryGo_attempts_le call rand 1 90 6 0
  · intro w hw
    exact retryGo_waits_bounded call rand 6 0 w hw
  · intro v hfail hok
    have h := retryGo_fail_then_ok call rand 1 90 6 0 5 v (by omega)
      (by intro k hk; simpa using hfail k hk) (by simpa using hok)
    simpa [generate_response_retry] using h
  · intro hfail
    have h := retryGo_all_fail call rand 1 90 6 0
      (by intro k hk; simpa using hfail k hk)
    simpa [generate_response_retry] using h

/-- Witness for the retry claim: five forced transient failures then a
success make the model return the success value after exactly six
attempts. -/
theorem retry_at_most_six_attempts_witness :
    (generate_response_retry witnessCall witnessRand).result = Except.ok "answer" ∧
      (generate_response_retry witnessCall witnessRand).attempts = 6 :=
  (retry_at_most_six_attempts witnessCall witnessRand).2.2.1 "answer"
    (fun k hk => by simp [witnessCall, hk])
    (by norm_num [witnessCall])
